import Mathlib

/-!
Verification of the ritalin game-grabber pipeline
(`src/scripts/grab_itch_game.py` and `src/scripts/download_game.py`).

Strings are modelled as `List Char`.  HTML parsing (BeautifulSoup) is
abstracted at its output boundary: a page is represented by the lists of
attribute values / regex matches that the parsing calls return, and every
piece of logic that the scripts apply to those values (filters, regex
substitution, filename classification, dict insertion, control flow) is
translated directly from the Python source.
-/

/-- Convert a string literal to the `List Char` representation used throughout. -/
def lchars (s : String) : List Char := s.toList

/-- Python's substring test `pat in s` (`str.__contains__`). -/
def containsSub (pat : List Char) : List Char → Bool
  | [] => pat.isEmpty
  | c :: rest => pat.isPrefixOf (c :: rest) || containsSub pat rest

/-- Python's `str.lower`, per character (ASCII filenames). -/
def lowerStr (s : List Char) : List Char := s.map Char.toLower

/-- Python's `filename.endswith('.gz')`. -/
def endsWithGz (s : List Char) : Bool := (lchars ".gz").isSuffixOf s

/-- Value of an ASCII hex digit, as used by percent-decoding. -/
def hexVal (c : Char) : Option Nat :=
  if '0' ≤ c && c ≤ '9' then some (c.toNat - 48)
  else if 'a' ≤ c && c ≤ 'f' then some (c.toNat - 87)
  else if 'A' ≤ c && c ≤ 'F' then some (c.toNat - 55)
  else none

/-- `urllib.parse.unquote`, modelled for single-byte (ASCII) percent escapes:
each valid `%XX` pair is decoded to the character with code `0xXX`, invalid
sequences are left untouched, and decoding does not rescan its own output. -/
def pyUnquote : List Char → List Char
  | [] => []
  | '%' :: h1 :: h2 :: rest =>
    match hexVal h1, hexVal h2 with
    | some a, some b => Char.ofNat (16 * a + b) :: pyUnquote rest
    | _, _ => '%' :: pyUnquote (h1 :: h2 :: rest)
  | c :: rest => c :: pyUnquote rest

/-- Decode pass of `fix_url_encoded_filenames` (grab_itch_game.py lines 196-202):
every filename containing `%` is renamed in place to its decoded form.  The
directory is modelled as the list of its filenames; `os.listdir` is the list
itself and `os.rename` replaces the entry (decoded names are assumed not to
collide with existing entries, as a name-list model cannot merge files). -/
def decodePass (files : List (List Char)) : List (List Char) :=
  files.map (fun f => if f.contains '%' then pyUnquote f else f)

/-- The simplified-filename classification of `fix_url_encoded_filenames`
(grab_itch_game.py lines 209-217): case-insensitive substring match against
the four role markers, with `endswith('.gz')` tested on the original name. -/
def simpleName (f : List Char) : Option (List Char) :=
  let lf := lowerStr f
  if containsSub (lchars ".loader.js") lf then some (lchars "loader.js")
  else if containsSub (lchars ".framework.js") lf then
    some (if endsWithGz f then lchars "framework.js.gz" else lchars "framework.js")
  else if containsSub (lchars ".data") lf then
    some (if endsWithGz f then lchars "data.gz" else lchars "data")
  else if containsSub (lchars ".wasm") lf then
    some (if endsWithGz f then lchars "wasm.gz" else lchars "wasm")
  else none

/-- Body of the alias-pass loop (grab_itch_game.py lines 219-223): if the
file classifies and no file of the simplified name exists yet, `shutil.copy2`
creates the copy; otherwise the directory is unchanged. -/
def aliasStep (d : List (List Char)) (f : List Char) : List (List Char) :=
  match simpleName f with
  | some s => if d.contains s then d else d ++ [s]
  | none => d

/-- Alias pass of `fix_url_encoded_filenames` (grab_itch_game.py lines 205-223):
for each listed filename, if it classifies to a simplified name, copy it to
that name unless a file of that exact name already exists (`shutil.copy2`
guarded by `not os.path.exists`).  `snapshot` is the `os.listdir` result taken
when the pass starts; `dir` is the evolving directory contents. -/
def aliasPass (snapshot : List (List Char)) (dir : List (List Char)) : List (List Char) :=
  snapshot.foldl aliasStep dir

/-- `fix_url_encoded_filenames` (grab_itch_game.py lines 188-223): the decode
pass followed by the alias pass, the alias pass listing the directory after
the decode pass has run. -/
def fixFilenames (files : List (List Char)) : List (List Char) :=
  let d := decodePass files
  aliasPass d d

/-! ### Asset fetch loop of grab_itch_game.py (lines 151-169)

Each asset download is wrapped in `try/except`: a failure prints a warning
and the loop continues with the next asset.  The network is abstracted by an
oracle `ok` saying which asset URLs download successfully. -/

/-- Outcome recorded for one asset by the fetch loop. -/
inductive FetchStatus where
  | fetched
  | failed
  deriving DecidableEq

/-- The per-asset download loop of `download_and_extract_embedded_game`
(grab_itch_game.py lines 151-169): every asset in the manifest gets exactly
one outcome; an exception is caught (`except`: warning) and never stops the
loop. -/
def grabFetchAll (ok : List Char → Bool) (assets : List (List Char)) :
    List (List Char × FetchStatus) :=
  assets.map (fun a => (a, if ok a then FetchStatus.fetched else FetchStatus.failed))

/-! ### Asset manifest collection of grab_itch_game.py (lines 124-147)

The structural scan appends every `<script src=...>` value starting with
`Build/`; the configuration scan then appends, in pattern order
(`dataUrl`, `frameworkUrl`, `codeUrl`), every regex match starting with
`Build/`.  The parse results (`src` attributes, regex match lists) are the
inputs of the model. -/

/-- The asset-root test `src.startswith('Build/')`. -/
def buildRooted (s : List Char) : Bool := (lchars "Build/").isPrefixOf s

/-- `assets_to_download` as built by `download_and_extract_embedded_game`
(grab_itch_game.py lines 124-147): structural-scan matches first, then the
accepted matches of the three config patterns, appended in order with no
deduplication. -/
def grabCollectAssets (scriptSrcs dataM fwM codeM : List (List Char)) : List (List Char) :=
  (scriptSrcs.filter buildRooted ++ dataM.filter buildRooted)
    ++ (fwM.filter buildRooted ++ codeM.filter buildRooted)

/-! ### URL resolver of grab_itch_game.py (lines 50-91)

`find_embedded_game_url` selects, in order, an iframe whose src contains
`html-classic.itch.zone`, one whose src contains `itch.zone`, the iframe with
id `game_drop`, and finally the iframe parsed out of an
`.iframe_placeholder` element's `data-iframe` attribute.  The page is
modelled by the four selector results (`none` covers both a missing element
and a missing/empty `src`, which Python treats as falsy). -/

structure HostPage where
  classicSrc : Option (List Char)
  zoneSrc : Option (List Char)
  dropSrc : Option (List Char)
  placeholderSrc : Option (List Char)

/-- `find_embedded_game_url` (grab_itch_game.py lines 50-91): return the
first selector's `src` verbatim; `none` models the `return None` after the
final error message. -/
def findEmbeddedGameUrl (p : HostPage) : Option (List Char) :=
  match p.classicSrc with
  | some u => some u
  | none =>
    match p.zoneSrc with
    | some u => some u
    | none =>
      match p.dropSrc with
      | some u => some u
      | none => p.placeholderSrc

/-! ### Extractor and success contract of download_game.py

`download_unity_game` (lines 48-115) collects Unity files into a dict keyed
by basename, raises when the dict is empty (lines 91-92), downloads each
file with `raise_for_status` (an asset failure aborts the whole function),
and finally `create_standalone_html` (lines 117-131) raises when no
`.loader.js` file is present.  `main` converts any raised exception into
exit code 1. -/

/-- The extension test of the structural scan (download_game.py line 69):
`any(ext in src for ext in ['.loader.js', '.framework.js', '.data', '.wasm'])`. -/
def isUnitySrc (s : List Char) : Bool :=
  containsSub (lchars ".loader.js") s || containsSub (lchars ".framework.js") s
    || containsSub (lchars ".data") s || containsSub (lchars ".wasm") s

/-- `urlparse(src).path` restricted to dropping the query/fragment part,
which is all the scripts' relative asset paths have. -/
def dropQuery (s : List Char) : List Char :=
  s.takeWhile (fun c => !(c == '?' || c == '#'))

/-- `os.path.basename(urlparse(src).path)` (download_game.py lines 71, 88). -/
def baseName (s : List Char) : List Char :=
  ((dropQuery s).reverse.takeWhile (fun c => !(c == '/'))).reverse

/-- `urljoin(iframe_url, src)`, modelled only as far as the claims need it:
an already absolute URL is kept, anything else is resolved under the base. -/
def urlJoin (base s : List Char) : List Char :=
  if (lchars "http").isPrefixOf s then s else base ++ s

/-- Python dict assignment `d[k] = v`: update in place if the key exists,
else append a new entry (insertion order preserved). -/
def dictInsert (d : List (List Char × List Char)) (k v : List Char) :
    List (List Char × List Char) :=
  if d.any (fun p => p.1 == k) then
    d.map (fun p => if p.1 == k then (p.1, v) else p)
  else d ++ [(k, v)]

/-- `unity_files` as built by `download_unity_game` (download_game.py lines
63-89): structural-scan entries first, then the config-scan regex matches
(`cfg` is the list of URLs matched on `buildUrl`/`dataUrl` lines), keyed by
basename with last-writer-wins values. -/
def unityFiles (base : List Char) (srcs cfg : List (List Char)) :
    List (List Char × List Char) :=
  let l1 := (srcs.filter isUnitySrc).foldl
    (fun d s => dictInsert d (baseName s) (urlJoin base s)) []
  cfg.foldl (fun d u => dictInsert d (baseName u) (urlJoin base u)) l1

/-- The guard of download_game.py lines 91-92: `if not unity_files: raise`. -/
def manifestEmptyRaised (base : List Char) (srcs cfg : List (List Char)) : Bool :=
  (unityFiles base srcs cfg).isEmpty

/-- Loader lookup of `create_standalone_html` (download_game.py line 121):
`next((f for f in unity_files.keys() if '.loader.js' in f), None)`. -/
def loaderPresent (files : List (List Char × List Char)) : Bool :=
  files.any (fun p => containsSub (lchars ".loader.js") p.1)

/-- Overall success of `download_unity_game` (download_game.py lines 48-115):
false when the manifest is empty (lines 91-92), when any per-file
`raise_for_status` fires (lines 102-103, aborting the function), or when
`create_standalone_html` cannot find a loader file (lines 126-127); true
otherwise.  `main` maps this directly to the exit status. -/
def downloadUnityGame (ok : List Char → Bool) (base : List Char)
    (srcs cfg : List (List Char)) : Bool :=
  let files := unityFiles base srcs cfg
  if files.isEmpty then false
  else if files.all (fun p => ok p.2) then loaderPresent files
  else false

/-! ### Top-level sequencing of grab_itch_game.py `main` (lines 330-406) -/

/-- The effectful steps of `main`, in program order. -/
inductive MainStep where
  | ensureGamesDir
  | removeExistingDir
  | resolveEmbedUrl
  | fetchEmbedAndAssets
  | copyToGameDir
  | canonicalizeFilenames
  | writeStandalone
  | writeLauncher
  | writeServer
  | writeInfo
  deriving DecidableEq, BEq

/-- Program order of `main` (grab_itch_game.py lines 342-390). -/
def mainSteps : List MainStep :=
  [MainStep.ensureGamesDir, MainStep.removeExistingDir, MainStep.resolveEmbedUrl,
   MainStep.fetchEmbedAndAssets, MainStep.copyToGameDir, MainStep.canonicalizeFilenames,
   MainStep.writeStandalone, MainStep.writeLauncher, MainStep.writeServer,
   MainStep.writeInfo]

/-- Lines 350-352 of grab_itch_game.py: `if game_dir.exists():
shutil.rmtree(game_dir)`.  The optional value is the existing directory's
contents; after the step the directory is gone in either case. -/
def removeExistingGameDir (gameDir : Option (List (List Char))) :
    Option (List (List Char)) :=
  match gameDir with
  | some _ => none
  | none => none

/-! ### Bundle rewriter of grab_itch_game.py `create_standalone_html` (lines 225-250)

The replacement loop (lines 236-247) applies seven regexes of the shape
`Build/[^"']*MID[^"']*` — optionally with a trailing negative lookahead
`(?!\.gz)` — in a fixed order, each with `re.sub`.  The matcher below
implements exactly Python's backtracking semantics for this pattern class:
leftmost match, both character classes greedy with backtracking, lookahead
checked after the second star.  (The itch.io script-stripping substitutions
of lines 231-232 precede the loop and are the identity on inputs without a
`<script` element; the claims concern the replacement loop.) -/

/-- The character class `[^"']`, negated: is `c` one of the two quotes? -/
def isQuote (c : Char) : Bool := c == '"' || c == Char.ofNat 39

/-- Does the text ahead start with `.gz` (the negative lookahead's argument)? -/
def gzAhead (t : List Char) : Bool := (lchars ".gz").isPrefixOf t

/-- Matching of the trailing `[^"']*` (greedy) followed by the optional
`(?!\.gz)` lookahead: the number of characters consumed, trying the longest
extent first, exactly as the backtracking engine does. -/
def starTail (negGz : Bool) : List Char → Option Nat
  | [] => if negGz && gzAhead [] then none else some 0
  | c :: rest =>
    if isQuote c then
      if negGz && gzAhead (c :: rest) then none else some 0
    else
      match starTail negGz rest with
      | some k => some (k + 1)
      | none => if negGz && gzAhead (c :: rest) then none else some 0

/-- After the leading star has consumed its characters: match the literal
`MID` here, then the trailing star and lookahead.  Returns the total number
of characters consumed from `t`. -/
def midHere (mid : List Char) (negGz : Bool) (t : List Char) : Option Nat :=
  if mid.isPrefixOf t then
    (starTail negGz (t.drop mid.length)).map (fun k => mid.length + k)
  else none

/-- Matching of `[^"']*MID[^"']*(?!\.gz)?` at the start of `t`: the leading
star is greedy, so the deepest position at which `MID` (followed by the rest
of the pattern) matches wins; on full failure below, `MID` is tried at the
current position.  Returns the number of characters consumed. -/
def starMid (mid : List Char) (negGz : Bool) : List Char → Option Nat
  | [] => midHere mid negGz []
  | c :: rest =>
    if isQuote c then midHere mid negGz (c :: rest)
    else
      match starMid mid negGz rest with
      | some n => some (n + 1)
      | none => midHere mid negGz (c :: rest)

/-- Full pattern `Build/[^"']*MID[^"']*` (with optional `(?!\.gz)`)
anchored at the start of `t`: the matched length, or `none`. -/
def matchPat (mid : List Char) (negGz : Bool) (t : List Char) : Option Nat :=
  if (lchars "Build/").isPrefixOf t then
    (starMid mid negGz (t.drop 6)).map (fun n => 6 + n)
  else none

/-- `re.sub` for one such pattern: scan left to right, replace each leftmost
non-overlapping match and resume after it.  Fuel-driven so that the
definition is structural; `subPat` supplies fuel `s.length`, which the
first lemma below shows is always enough. -/
def subPatGo (mid : List Char) (negGz : Bool) (repl : List Char) :
    Nat → List Char → List Char
  | _, [] => []
  | 0, s => s
  | fuel + 1, c :: rest =>
    match matchPat mid negGz (c :: rest) with
    | some n => repl ++ subPatGo mid negGz repl fuel ((c :: rest).drop n)
    | none => c :: subPatGo mid negGz repl fuel rest

/-- One `re.sub(pattern, replacement, content)` call of the loop. -/
def subPat (mid : List Char) (negGz : Bool) (repl : List Char) (s : List Char) :
    List Char :=
  subPatGo mid negGz repl s.length s

/-- The `replacements` table of `create_standalone_html` (grab_itch_game.py
lines 236-244): `(MID, has lookahead, replacement)` for each of the seven
patterns, in source order. -/
def replacements : List (List Char × Bool × List Char) :=
  [(lchars ".loader.js", false, lchars "Build/loader.js"),
   (lchars ".framework.js.gz", false, lchars "Build/framework.js.gz"),
   (lchars ".framework.js", true, lchars "Build/framework.js"),
   (lchars ".data.gz", false, lchars "Build/data.gz"),
   (lchars ".data", true, lchars "Build/data"),
   (lchars ".wasm.gz", false, lchars "Build/wasm.gz"),
   (lchars ".wasm", true, lchars "Build/wasm")]

/-- The replacement loop of `create_standalone_html` (grab_itch_game.py
lines 246-247): the seven substitutions applied in order. -/
def rewritePaths (s : List Char) : List Char :=
  replacements.foldl (fun acc r => subPat r.1 r.2.1 r.2.2 acc) s

/-- Is every character outside the quoted class `["']`?  (The span one of
the rewriter's patterns can cover.) -/
def noQuote (s : List Char) : Bool := s.all (fun c => !(isQuote c))

/-- Does the text start with a quote, or end here?  (What follows the
quote-free span a pattern match covers.) -/
def qnil : List Char → Bool
  | [] => true
  | c :: _ => isQuote c

/-- A double-quoted asset path under the asset root, the shape in which the
embed markup carries the paths the rewriter normalizes. -/
def quotedBuild (t : List Char) : List Char :=
  '"' :: (lchars "Build/" ++ (t ++ ['"']))

/-! ## Supporting lemmas -/

theorem contains_iff_mem (l : List (List Char)) (x : List Char) :
    l.contains x = true ↔ x ∈ l := by
  simp [List.contains, List.elem_iff]

theorem aliasStep_some (d : List (List Char)) (f s : List Char)
    (h : simpleName f = some s) :
    aliasStep d f = if d.contains s then d else d ++ [s] := by
  unfold aliasStep
  rw [h]

theorem aliasStep_none (d : List (List Char)) (f : List Char)
    (h : simpleName f = none) : aliasStep d f = d := by
  unfold aliasStep
  rw [h]

theorem aliasStep_mem_mono (d : List (List Char)) (f x : List Char) (h : x ∈ d) :
    x ∈ aliasStep d f := by
  cases hf : simpleName f with
  | none => rw [aliasStep_none d f hf]; exact h
  | some s =>
    rw [aliasStep_some d f s hf]
    by_cases hc : d.contains s
    · rw [if_pos hc]; exact h
    · rw [if_neg hc]; exact List.mem_append_left _ h

theorem aliasPass_mem_mono (snapshot : List (List Char)) :
    ∀ (dir : List (List Char)) (x : List Char), x ∈ dir → x ∈ aliasPass snapshot dir := by
  induction snapshot with
  | nil => intro dir x h; exact h
  | cons f fs ih =>
    intro dir x h
    unfold aliasPass
    simp only [List.foldl_cons]
    exact ih (aliasStep dir f) x (aliasStep_mem_mono dir f x h)

theorem aliasPass_classified_present (snapshot : List (List Char)) :
    ∀ (dir : List (List Char)) (f s : List Char), f ∈ snapshot → simpleName f = some s →
      s ∈ aliasPass snapshot dir := by
  induction snapshot with
  | nil => intro dir f s h; cases h
  | cons g gs ih =>
    intro dir f s hf hs
    unfold aliasPass
    simp only [List.foldl_cons]
    rcases List.mem_cons.mp hf with rfl | hf
    · have hmem : s ∈ aliasStep dir f := by
        rw [aliasStep_some dir f s hs]
        by_cases hc : dir.contains s
        · rw [if_pos hc]; exact (contains_iff_mem dir s).mp hc
        · rw [if_neg hc]; exact List.mem_append_right _ (List.mem_singleton.mpr rfl)
      exact aliasPass_mem_mono gs (aliasStep dir f) s hmem
    · exact ih (aliasStep dir g) f s hf hs

theorem aliasPass_sub (snapshot : List (List Char)) :
    ∀ (dir : List (List Char)) (x : List Char), x ∈ aliasPass snapshot dir →
      x ∈ dir ∨ ∃ f ∈ snapshot, simpleName f = some x := by
  induction snapshot with
  | nil => intro dir x h; exact Or.inl h
  | cons g gs ih =>
    intro dir x h
    unfold aliasPass at h
    simp only [List.foldl_cons] at h
    rcases ih (aliasStep dir g) x h with hstep | ⟨f, hf, hfs⟩
    · cases hg : simpleName g with
      | none => rw [aliasStep_none dir g hg] at hstep; exact Or.inl hstep
      | some s =>
        rw [aliasStep_some dir g s hg] at hstep
        by_cases hc : dir.contains s
        · rw [if_pos hc] at hstep; exact Or.inl hstep
        · rw [if_neg hc] at hstep
          rcases List.mem_append.mp hstep with hd | hx
          · exact Or.inl hd
          · refine Or.inr ⟨g, List.mem_cons_self g gs, ?_⟩
            rw [hg, List.mem_singleton.mp hx]
    · exact Or.inr ⟨f, List.mem_cons_of_mem g hf, hfs⟩

theorem simpleName_canonical (f s : List Char) (h : simpleName f = some s) :
    s = lchars "loader.js" ∨ s = lchars "framework.js.gz" ∨ s = lchars "framework.js"
      ∨ s = lchars "data.gz" ∨ s = lchars "data" ∨ s = lchars "wasm.gz"
      ∨ s = lchars "wasm" := by
  unfold simpleName at h
  by_cases h1 : containsSub (lchars ".loader.js") (lowerStr f) = true
  · rw [if_pos h1] at h
    injection h with h
    subst h
    tauto
  · rw [if_neg h1] at h
    by_cases h2 : containsSub (lchars ".framework.js") (lowerStr f) = true
    · rw [if_pos h2] at h
      injection h with h
      subst h
      cases endsWithGz f <;> simp
    · rw [if_neg h2] at h
      by_cases h3 : containsSub (lchars ".data") (lowerStr f) = true
      · rw [if_pos h3] at h
        injection h with h
        subst h
        cases endsWithGz f <;> simp
      · rw [if_neg h3] at h
        by_cases h4 : containsSub (lchars ".wasm") (lowerStr f) = true
        · rw [if_pos h4] at h
          injection h with h
          subst h
          cases endsWithGz f <;> simp
        · rw [if_neg h4] at h
          cases h

theorem simpleName_canonical_none (s : List Char)
    (h : s = lchars "loader.js" ∨ s = lchars "framework.js.gz" ∨ s = lchars "framework.js"
      ∨ s = lchars "data.gz" ∨ s = lchars "data" ∨ s = lchars "wasm.gz"
      ∨ s = lchars "wasm") : simpleName s = none := by
  rcases h with rfl | rfl | rfl | rfl | rfl | rfl | rfl <;> decide

theorem aliasPass_fixed (snapshot : List (List Char)) :
    ∀ dir : List (List Char),
      (∀ f ∈ snapshot, ∀ s, simpleName f = some s → s ∈ dir) →
      aliasPass snapshot dir = dir := by
  induction snapshot with
  | nil => intro dir _; rfl
  | cons g gs ih =>
    intro dir hdir
    unfold aliasPass
    simp only [List.foldl_cons]
    have hstep : aliasStep dir g = dir := by
      cases hg : simpleName g with
      | none => exact aliasStep_none dir g hg
      | some s =>
        have hmem : s ∈ dir := hdir g (List.mem_cons_self g gs) s hg
        rw [aliasStep_some dir g s hg, if_pos ((contains_iff_mem dir s).mpr hmem)]
    rw [hstep]
    exact ih dir (fun f hf => hdir f (List.mem_cons_of_mem g hf))

theorem dictInsert_ne_nil (d : List (List Char × List Char)) (k v : List Char) :
    dictInsert d k v ≠ [] := by
  unfold dictInsert
  split
  · next h =>
    cases d with
    | nil => simp at h
    | cons p ps => simp
  · simp

theorem foldl_dictInsert_ne_nil (base : List Char) (l : List (List Char)) :
    ∀ d : List (List Char × List Char), d ≠ [] →
      l.foldl (fun d s => dictInsert d (baseName s) (urlJoin base s)) d ≠ [] := by
  induction l with
  | nil => intro d h; exact h
  | cons x xs ih =>
    intro d _
    simp only [List.foldl_cons]
    exact ih _ (dictInsert_ne_nil d (baseName x) (urlJoin base x))

theorem foldl_dictInsert_eq_nil_iff (base : List Char) (l : List (List Char)) :
    ∀ d : List (List Char × List Char),
      (l.foldl (fun d s => dictInsert d (baseName s) (urlJoin base s)) d = [] ↔
        d = [] ∧ l = []) := by
  induction l with
  | nil => intro d; simp
  | cons x xs ih =>
    intro d
    simp only [List.foldl_cons]
    constructor
    · intro h
      exact absurd h
        (foldl_dictInsert_ne_nil base xs _ (dictInsert_ne_nil d (baseName x) (urlJoin base x)))
    · rintro ⟨-, h⟩; cases h

/-! ## Claim theorems -/

/-- C2: The asset manifest extractor does not fail when either the
structural scan or the configuration scan alone yields zero results, but it
fails with the empty-manifest error (download_game.py lines 91-92,
`No Unity build files found`), aborting the run immediately, exactly when
the union of the two scans' results is empty. -/
theorem C2_manifest_empty_exactly_on_empty_union :
    ∀ (base : List Char) (srcs cfg : List (List Char)),
      manifestEmptyRaised base srcs cfg = true ↔
        (srcs.filter isUnitySrc = [] ∧ cfg = []) := by
  intro base srcs cfg
  unfold manifestEmptyRaised unityFiles
  rw [List.isEmpty_iff]
  rw [foldl_dictInsert_eq_nil_iff base cfg]
  rw [foldl_dictInsert_eq_nil_iff base (srcs.filter isUnitySrc)]
  tauto

/-- C5: A fetched file named `My%20Game.wasm` is renamed in place (the
encoded name is gone afterwards, so it was a rename, not a copy) to
`My Game.wasm` by the decode pass, before alias classification; the full
canonicalizer then aliases it to the code role's canonical filename `wasm`
with no `.gz` suffix, keeping the decoded original. -/
theorem C5_percent_decoded_then_aliased :
    decodePass [lchars "My%20Game.wasm"] = [lchars "My Game.wasm"]
    ∧ fixFilenames [lchars "My%20Game.wasm"] = [lchars "My Game.wasm", lchars "wasm"]
    ∧ lchars "My%20Game.wasm" ∉ fixFilenames [lchars "My%20Game.wasm"]
    ∧ simpleName (lchars "My Game.wasm") = some (lchars "wasm") := by
  refine ⟨by decide, by decide, by decide, by decide⟩

/-- C7: For every manifest of N asset references and every outcome of the
network (the oracle `ok`), the fetch loop of grab_itch_game.py (lines
151-169) produces exactly N fetch results whose references are the manifest
entries in order: a failed fetch is recorded as `FetchStatus.failed` and
never aborts the remaining fetches or the pipeline. -/
theorem C7_one_fetch_result_per_reference :
    ∀ (ok : List Char → Bool) (assets : List (List Char)),
      (grabFetchAll ok assets).length = assets.length
      ∧ (grabFetchAll ok assets).map Prod.fst = assets
      ∧ grabFetchAll (fun _ => false) assets
          = assets.map (fun a => (a, FetchStatus.failed)) := by
  intro ok assets
  refine ⟨by simp [grabFetchAll], ?_, by simp [grabFetchAll]⟩
  induction assets with
  | nil => rfl
  | cons a rest ih => simpa [grabFetchAll] using ih

/-- C10: On every invocation whose output directory already exists, `main`
(grab_itch_game.py lines 350-352) deletes the entire existing directory tree
(`shutil.rmtree`), and this step comes before the resolve/fetch steps in
`main`'s program order — in contrast to the canonicalizer's alias pass,
which leaves a directory containing its canonical names unchanged. -/
theorem C10_rerun_deletes_existing_dir_before_fetch :
    (∀ d : Option (List (List Char)), removeExistingGameDir d = none)
    ∧ mainSteps.indexOf MainStep.removeExistingDir
        < mainSteps.indexOf MainStep.resolveEmbedUrl
    ∧ mainSteps.indexOf MainStep.removeExistingDir
        < mainSteps.indexOf MainStep.fetchEmbedAndAssets
    ∧ aliasPass [lchars "G.data.gz", lchars "data.gz"]
        [lchars "G.data.gz", lchars "data.gz"]
        = [lchars "G.data.gz", lchars "data.gz"] := by
  refine ⟨fun d => ?_, by decide, by decide, by decide⟩
  cases d <;> rfl

/-- C1 counterexample: a manifest holding only a loader file, with every
fetch succeeding, makes download_game.py report overall success although
neither a framework nor a code (`.wasm`) role was materialized — so success
does not require "at least one of framework or code" as the claim states. -/
theorem C1_counterexample :
    downloadUnityGame (fun _ => true) (lchars "https://x/")
        [lchars "Build/G.loader.js"] [] = true
    ∧ (unityFiles (lchars "https://x/") [lchars "Build/G.loader.js"] []).any
        (fun p => containsSub (lchars ".framework.js") p.1) = false
    ∧ (unityFiles (lchars "https://x/") [lchars "Build/G.loader.js"] []).any
        (fun p => containsSub (lchars ".wasm") p.1) = false := by
  refine ⟨by decide, by decide, by decide⟩

/-- C1 amended: the pipeline reports overall success exactly when the
manifest is non-empty, every individual fetch succeeded, and a loader file
is present — the framework and code roles are not required; and a manifest
containing only a data asset still yields overall failure (the missing
required loader) even though its fetch succeeded. -/
theorem C1_success_iff_loader :
    (∀ (ok : List Char → Bool) (base : List Char) (srcs cfg : List (List Char)),
      downloadUnityGame ok base srcs cfg = true ↔
        (unityFiles base srcs cfg ≠ []
          ∧ (∀ p ∈ unityFiles base srcs cfg, ok p.2 = true)
          ∧ loaderPresent (unityFiles base srcs cfg) = true))
    ∧ downloadUnityGame (fun _ => true) (lchars "https://x/")
        [lchars "Build/G.data"] [] = false := by
  constructor
  · intro ok base srcs cfg
    unfold downloadUnityGame
    by_cases he : (unityFiles base srcs cfg).isEmpty = true
    · rw [if_pos he]
      simp [List.isEmpty_iff.mp he]
    · rw [if_neg he]
      have hne : unityFiles base srcs cfg ≠ [] := by
        intro h
        exact he (List.isEmpty_iff.mpr h)
      by_cases ha : (unityFiles base srcs cfg).all (fun p => ok p.2) = true
      · rw [if_pos ha]
        simp only [List.all_eq_true] at ha
        constructor
        · intro hl
          exact ⟨hne, ha, hl⟩
        · rintro ⟨-, -, hl⟩
          exact hl
      · rw [if_neg ha]
        simp only [List.all_eq_true] at ha
        constructor
        · intro h
          exact absurd h (by decide)
        · rintro ⟨-, hall, -⟩
          exact absurd hall ha
  · decide

/-- C4 counterexample: on a directory holding a double-percent-encoded
fetched file, re-running the canonicalizer on its own output is not
idempotent — the decode pass decodes `My%20Game.wasm` once more and renames
it, so the second run creates a file name that did not exist before. -/
theorem C4_counterexample :
    fixFilenames [lchars "My%2520Game.wasm"]
        = [lchars "My%20Game.wasm", lchars "wasm"]
    ∧ fixFilenames (fixFilenames [lchars "My%2520Game.wasm"])
        = [lchars "My Game.wasm", lchars "wasm"]
    ∧ lchars "My Game.wasm" ∉ fixFilenames [lchars "My%2520Game.wasm"]
    ∧ fixFilenames (fixFilenames [lchars "My%2520Game.wasm"])
        ≠ fixFilenames [lchars "My%2520Game.wasm"] := by
  refine ⟨by decide, by decide, by decide, by decide⟩

/-- C4 amended: the alias pass copies — the decoded originals all remain
after the run — and skips silently when the canonical name exists; re-running
the canonicalizer on an already-canonicalized directory overwrites and
creates nothing provided the decode pass leaves that directory unchanged
(no filename still containing a decodable percent-sequence). -/
theorem C4_alias_copies_and_rerun_fixed :
    ∀ files : List (List Char),
      (∀ x ∈ decodePass files, x ∈ fixFilenames files)
      ∧ (decodePass (fixFilenames files) = fixFilenames files →
          fixFilenames (fixFilenames files) = fixFilenames files) := by
  intro files
  constructor
  · intro x hx
    exact aliasPass_mem_mono (decodePass files) (decodePass files) x hx
  · intro hdec
    show aliasPass (decodePass (fixFilenames files)) (decodePass (fixFilenames files))
        = fixFilenames files
    rw [hdec]
    apply aliasPass_fixed
    intro f hf s hs
    rcases aliasPass_sub (decodePass files) (decodePass files) f hf with hfd | ⟨g, -, hgs⟩
    · exact aliasPass_classified_present (decodePass files) (decodePass files) f s hfd hs
    · have hcanon := simpleName_canonical g f hgs
      have hnone : simpleName f = none := simpleName_canonical_none f hcanon
      rw [hnone] at hs
      cases hs

/-- C4 witness: the amended statement applied to the single-encoded
directory `[My%20Game.wasm]`, whose canonicalized form the decode pass
leaves unchanged. -/
theorem C4_alias_copies_and_rerun_fixed_witness :
    lchars "My Game.wasm" ∈ fixFilenames [lchars "My%20Game.wasm"]
    ∧ fixFilenames (fixFilenames [lchars "My%20Game.wasm"])
        = fixFilenames [lchars "My%20Game.wasm"] :=
  ⟨(C4_alias_copies_and_rerun_fixed [lchars "My%20Game.wasm"]).1
      (lchars "My Game.wasm") (by decide),
   (C4_alias_copies_and_rerun_fixed [lchars "My%20Game.wasm"]).2 (by decide)⟩

/-- C6 counterexample: a path found by both the structural scan and the
`frameworkUrl` configuration pattern appears twice in the manifest built by
grab_itch_game.py — the extractor performs no deduplication, so relativePath
values are not unique. -/
theorem C6_counterexample :
    (grabCollectAssets [lchars "Build/G.framework.js"] []
        [lchars "Build/G.framework.js"] []).count (lchars "Build/G.framework.js") = 2
    ∧ ¬ (grabCollectAssets [lchars "Build/G.framework.js"] []
        [lchars "Build/G.framework.js"] []).Nodup := by
  refine ⟨by decide, by decide⟩

/-- C6 amended: configuration-scan matches are appended to the
structural-scan results without deduplication, so every accepted path found
by both scans occurs at least twice in the manifest. -/
theorem C6_no_dedup_duplicates_shared_paths :
    ∀ (scriptSrcs dataM fwM codeM : List (List Char)) (p : List Char),
      buildRooted p = true → p ∈ scriptSrcs → p ∈ fwM →
      2 ≤ (grabCollectAssets scriptSrcs dataM fwM codeM).count p := by
  intro scriptSrcs dataM fwM codeM p hb hs hf
  unfold grabCollectAssets
  have h1 : 0 < (scriptSrcs.filter buildRooted).count p :=
    List.count_pos_iff.mpr (List.mem_filter.mpr ⟨hs, hb⟩)
  have h2 : 0 < (fwM.filter buildRooted).count p :=
    List.count_pos_iff.mpr (List.mem_filter.mpr ⟨hf, hb⟩)
  simp only [List.count_append]
  omega

/-- C6 witness: the amended statement at a concrete shared `dataUrl`-style
path. -/
theorem C6_no_dedup_duplicates_shared_paths_witness :
    2 ≤ (grabCollectAssets [lchars "Build/My.data.gz"] []
        [lchars "Build/My.data.gz"] []).count (lchars "Build/My.data.gz") :=
  C6_no_dedup_duplicates_shared_paths [lchars "Build/My.data.gz"] []
    [lchars "Build/My.data.gz"] [] (lchars "Build/My.data.gz")
    (by decide) (by decide) (by decide)

/-- C8 counterexample: a script element whose filename carries the loader
role suffix pattern but whose path does not begin with the asset-root prefix
`Build/` is not added by grab_itch_game.py's structural scan — the
suffix-pattern alternative of the claim does not exist there. -/
theorem C8_counterexample :
    containsSub (lchars ".loader.js") (lchars "TemplateData/G.loader.js") = true
    ∧ grabCollectAssets [lchars "TemplateData/G.loader.js"] [] [] [] = [] := by
  refine ⟨by decide, by decide⟩

/-- C8 amended: the manifest of grab_itch_game.py contains exactly the
script srcs and accepted configuration matches that begin with the
asset-root prefix `Build/`, with relativePath taken verbatim; elements
matching only a role suffix pattern are not added. -/
theorem C8_structural_scan_needs_asset_root :
    ∀ (scriptSrcs dataM fwM codeM : List (List Char)) (p : List Char),
      p ∈ grabCollectAssets scriptSrcs dataM fwM codeM ↔
        ((p ∈ scriptSrcs ∨ p ∈ dataM ∨ p ∈ fwM ∨ p ∈ codeM)
          ∧ buildRooted p = true) := by
  intro scriptSrcs dataM fwM codeM p
  unfold grabCollectAssets
  simp only [List.mem_append, List.mem_filter]
  tauto

/-- C9 counterexample: when only the `game_drop` selector matches and its
src is the relative URL `/embed/x.html`, the resolver returns that value
verbatim — not an absolute URL resolved against the host page, contradicting
the claim's "returns the first resolved absolute URL". -/
theorem C9_counterexample :
    findEmbeddedGameUrl ⟨none, none, some (lchars "/embed/x.html"), none⟩
        = some (lchars "/embed/x.html")
    ∧ (lchars "http").isPrefixOf (lchars "/embed/x.html") = false := by
  refine ⟨by decide, by decide⟩

/-- C9 amended: the resolver tries its strategies in priority order
(classic-zone fragment, zone fragment, `game_drop` id, placeholder
attribute) and returns the first src found, verbatim and unresolved; it
returns nothing — the embed-not-found failure reported to the caller —
exactly when no strategy yields a URL. -/
theorem C9_first_strategy_verbatim :
    (∀ (p : HostPage) (u : List Char),
      p.classicSrc = some u → findEmbeddedGameUrl p = some u)
    ∧ (∀ (p : HostPage) (u : List Char),
      p.classicSrc = none → p.zoneSrc = some u → findEmbeddedGameUrl p = some u)
    ∧ (∀ (p : HostPage) (u : List Char),
      p.classicSrc = none → p.zoneSrc = none → p.dropSrc = some u →
        findEmbeddedGameUrl p = some u)
    ∧ (∀ p : HostPage,
      p.classicSrc = none → p.zoneSrc = none → p.dropSrc = none →
        findEmbeddedGameUrl p = p.placeholderSrc)
    ∧ (∀ p : HostPage,
      findEmbeddedGameUrl p = none ↔
        (p.classicSrc = none ∧ p.zoneSrc = none ∧ p.dropSrc = none
          ∧ p.placeholderSrc = none)) := by
  refine ⟨?_, ?_, ?_, ?_, ?_⟩
  · intro p u h
    unfold findEmbeddedGameUrl
    rw [h]
  · intro p u h1 h2
    unfold findEmbeddedGameUrl
    rw [h1, h2]
  · intro p u h1 h2 h3
    unfold findEmbeddedGameUrl
    rw [h1, h2, h3]
  · intro p h1 h2 h3
    unfold findEmbeddedGameUrl
    rw [h1, h2, h3]
  · intro p
    unfold findEmbeddedGameUrl
    rcases p with ⟨c, z, d, ph⟩
    cases c <;> cases z <;> cases d <;> cases ph <;> simp

/-- C9 witness: the amended statement applied to concrete pages exercising
the first strategy and the all-miss case. -/
theorem C9_first_strategy_verbatim_witness :
    findEmbeddedGameUrl ⟨some (lchars "https://html-classic.itch.zone/a/1/index.html"),
        some (lchars "https://x.itch.zone/b"), none, none⟩
      = some (lchars "https://html-classic.itch.zone/a/1/index.html")
    ∧ findEmbeddedGameUrl ⟨none, none, none, none⟩ = none :=
  ⟨C9_first_strategy_verbatim.1 _ _ rfl,
   (C9_first_strategy_verbatim.2.2.2.2 ⟨none, none, none, none⟩).mpr
     ⟨rfl, rfl, rfl, rfl⟩⟩

/-! ## Rewriter lemmas -/

theorem isQuote_elim (c : Char) (h : isQuote c = true) :
    c = '"' ∨ c = Char.ofNat 39 := by
  unfold isQuote at h
  rcases Bool.or_eq_true_iff.mp h with h1 | h1
  · exact Or.inl (eq_of_beq h1)
  · exact Or.inr (eq_of_beq h1)

theorem gzAhead_quote (c : Char) (v : List Char) (h : isQuote c = true) :
    gzAhead (c :: v) = false := by
  rcases isQuote_elim c h with rfl | rfl <;> rfl

theorem gzAhead_nil : gzAhead [] = false := rfl

theorem noQuote_head (c : Char) (s : List Char) (h : noQuote (c :: s) = true) :
    isQuote c = false := by
  have := List.all_eq_true.mp h c (List.mem_cons_self c s)
  simpa using this

theorem noQuote_tail (c : Char) (s : List Char) (h : noQuote (c :: s) = true) :
    noQuote s = true :=
  List.all_eq_true.mpr (fun x hx => List.all_eq_true.mp h x (List.mem_cons_of_mem c hx))

theorem starTail_run (negGz : Bool) :
    ∀ run rest : List Char, noQuote run = true → qnil rest = true →
      starTail negGz (run ++ rest) = some run.length := by
  intro run
  induction run with
  | nil =>
    intro rest _ hr
    cases rest with
    | nil => simp [starTail, gzAhead_nil]
    | cons c v =>
      have hq : isQuote c = true := hr
      simp [starTail, hq, gzAhead_quote c v hq]
  | cons c run' ih =>
    intro rest hnq hr
    have hc : isQuote c = false := noQuote_head c run' hnq
    have hrec := ih rest (noQuote_tail c run' hnq) hr
    simp [starTail, hc, hrec]

theorem isPrefixOf_self_append : ∀ p x : List Char, p.isPrefixOf (p ++ x) = true := by
  intro p x
  induction p with
  | nil => simp [List.isPrefixOf]
  | cons c p' ih => simp [List.isPrefixOf, ih]

theorem midHere_none (mid : List Char) (negGz : Bool) (t : List Char)
    (h : mid.isPrefixOf t = false) : midHere mid negGz t = none := by
  simp [midHere, h]

theorem midHere_found (mid : List Char) (negGz : Bool) (w rest : List Char)
    (hw : noQuote w = true) (hr : qnil rest = true) :
    midHere mid negGz (mid ++ (w ++ rest)) = some (mid.length + w.length) := by
  have hpre : mid.isPrefixOf (mid ++ (w ++ rest)) = true := by
    exact isPrefixOf_self_append mid (w ++ rest)
  simp [midHere, hpre, List.drop_left, starTail_run negGz w rest hw hr]

theorem containsSub_tail (mid : List Char) (c : Char) (rest : List Char)
    (h : containsSub mid (c :: rest) = false) : containsSub mid rest = false := by
  have h' : (mid.isPrefixOf (c :: rest) || containsSub mid rest) = false := h
  exact (Bool.or_eq_false_iff.mp h').2

theorem containsSub_head (mid : List Char) (c : Char) (rest : List Char)
    (h : containsSub mid (c :: rest) = false) : mid.isPrefixOf (c :: rest) = false := by
  have h' : (mid.isPrefixOf (c :: rest) || containsSub mid rest) = false := h
  exact (Bool.or_eq_false_iff.mp h').1

theorem containsSub_drop (mid : List Char) :
    ∀ (n : Nat) (t : List Char), containsSub mid t = false →
      containsSub mid (t.drop n) = false := by
  intro n
  induction n with
  | zero => intro t h; simpa using h
  | succ k ih =>
    intro t h
    cases t with
    | nil => simpa using h
    | cons c rest =>
      rw [List.drop_succ_cons]
      exact ih rest (containsSub_tail mid c rest h)

theorem starMid_none (mid : List Char) (negGz : Bool) :
    ∀ t : List Char, containsSub mid t = false → starMid mid negGz t = none := by
  intro t
  induction t with
  | nil =>
    intro h
    have hne : mid.isPrefixOf [] = false := by
      cases mid with
      | nil => simp [containsSub] at h
      | cons a as => rfl
    simp [starMid, midHere_none mid negGz [] hne]
  | cons c rest ih =>
    intro h
    have h1 := containsSub_head mid c rest h
    have h2 := containsSub_tail mid c rest h
    by_cases hq : isQuote c = true
    · simp [starMid, hq, midHere_none mid negGz (c :: rest) h1]
    · have hq' : isQuote c = false := by simpa using hq
      simp [starMid, hq', ih h2, midHere_none mid negGz (c :: rest) h1]

theorem starMid_found (mid : List Char) (negGz : Bool)
    (hmidne : mid ≠ []) (hmidnq : noQuote mid = true) :
    ∀ u w rest : List Char, noQuote u = true → noQuote w = true → qnil rest = true →
      containsSub mid (mid.drop 1 ++ (w ++ rest)) = false →
      starMid mid negGz (u ++ (mid ++ (w ++ rest)))
        = some (u.length + (mid.length + w.length)) := by
  intro u
  induction u with
  | nil =>
    intro w rest _ hw hr htail
    cases mid with
    | nil => exact absurd rfl hmidne
    | cons m mid' =>
      have hm : isQuote m = false := noQuote_head m mid' hmidnq
      have hrec : starMid (m :: mid') negGz (mid' ++ (w ++ rest)) = none :=
        starMid_none (m :: mid') negGz _ (by simpa using htail)
      have hmh : midHere (m :: mid') negGz (m :: (mid' ++ (w ++ rest)))
          = some ((m :: mid').length + w.length) := by
        have hbase := midHere_found (m :: mid') negGz w rest hw hr
        simpa [List.cons_append] using hbase
      show starMid (m :: mid') negGz ([] ++ ((m :: mid') ++ (w ++ rest))) = _
      rw [List.nil_append, List.cons_append]
      simp [starMid, hm, hrec, hmh]
  | cons c u' ih =>
    intro w rest hu hw hr htail
    have hc : isQuote c = false := noQuote_head c u' hu
    have hrec := ih w rest (noQuote_tail c u' hu) hw hr htail
    simp only [List.cons_append]
    simp [starMid, hc, hrec]
    omega

theorem matchPat_none (mid : List Char) (negGz : Bool) (t : List Char)
    (h : containsSub mid t = false) : matchPat mid negGz t = none := by
  unfold matchPat
  by_cases hp : (lchars "Build/").isPrefixOf t = true
  · rw [if_pos hp, starMid_none mid negGz _ (containsSub_drop mid 6 t h)]
    rfl
  · rw [if_neg hp]

theorem matchPat_quoteHead (mid : List Char) (negGz : Bool) (t : List Char) :
    matchPat mid negGz ('"' :: t) = none := by
  unfold matchPat
  rfl

theorem matchPat_found (mid : List Char) (negGz : Bool)
    (hmidne : mid ≠ []) (hmidnq : noQuote mid = true)
    (u w rest : List Char) (hu : noQuote u = true) (hw : noQuote w = true)
    (hr : qnil rest = true)
    (htail : containsSub mid (mid.drop 1 ++ (w ++ rest)) = false) :
    matchPat mid negGz (lchars "Build/" ++ (u ++ (mid ++ (w ++ rest))))
      = some (6 + (u.length + (mid.length + w.length))) := by
  unfold matchPat
  have hp : (lchars "Build/").isPrefixOf
      (lchars "Build/" ++ (u ++ (mid ++ (w ++ rest)))) = true := by
    exact isPrefixOf_self_append _ _
  rw [if_pos hp]
  have hdrop : (lchars "Build/" ++ (u ++ (mid ++ (w ++ rest)))).drop 6
      = u ++ (mid ++ (w ++ rest)) := by
    have h6 : (lchars "Build/").length = 6 := rfl
    rw [← h6, List.drop_left]
  rw [hdrop, starMid_found mid negGz hmidne hmidnq u w rest hu hw hr htail]
  rfl

theorem subPatGo_nil (mid : List Char) (negGz : Bool) (repl : List Char) (fuel : Nat) :
    subPatGo mid negGz repl fuel [] = [] := by
  cases fuel <;> rfl

theorem subPatGo_step_none (mid : List Char) (negGz : Bool) (repl : List Char)
    (fuel : Nat) (c : Char) (t : List Char)
    (h : matchPat mid negGz (c :: t) = none) :
    subPatGo mid negGz repl (fuel + 1) (c :: t)
      = c :: subPatGo mid negGz repl fuel t := by
  simp [subPatGo, h]

theorem subPatGo_step_match (mid : List Char) (negGz : Bool) (repl : List Char)
    (fuel : Nat) (s : List Char) (n : Nat)
    (hne : s ≠ []) (h : matchPat mid negGz s = some n) :
    subPatGo mid negGz repl (fuel + 1) s
      = repl ++ subPatGo mid negGz repl fuel (s.drop n) := by
  cases s with
  | nil => exact absurd rfl hne
  | cons c t => simp [subPatGo, h]

theorem subPatGo_id (mid : List Char) (negGz : Bool) (repl : List Char) :
    ∀ (t : List Char) (fuel : Nat), containsSub mid t = false →
      subPatGo mid negGz repl fuel t = t := by
  intro t
  induction t with
  | nil => intro fuel _; exact subPatGo_nil mid negGz repl fuel
  | cons c rest ih =>
    intro fuel h
    cases fuel with
    | zero => rfl
    | succ f =>
      rw [subPatGo_step_none mid negGz repl f c rest (matchPat_none mid negGz _ h)]
      rw [ih f (containsSub_tail mid c rest h)]

theorem subPat_id (mid : List Char) (negGz : Bool) (repl : List Char)
    (s : List Char) (h : containsSub mid s = false) :
    subPat mid negGz repl s = s :=
  subPatGo_id mid negGz repl s s.length h

theorem buildChars_append_ne_nil (x : List Char) : lchars "Build/" ++ x ≠ [] := by
  rw [show lchars "Build/" = 'B' :: lchars "uild/" from rfl, List.cons_append]
  simp

theorem subPat_quoted (mid : List Char) (negGz : Bool) (repl : List Char)
    (u w : List Char)
    (hmidne : mid ≠ []) (hmidnq : noQuote mid = true)
    (hu : noQuote u = true) (hw : noQuote w = true)
    (htail : containsSub mid (mid.drop 1 ++ (w ++ ['"'])) = false) :
    subPat mid negGz repl ('"' :: (lchars "Build/" ++ (u ++ (mid ++ (w ++ ['"'])))))
      = '"' :: (repl ++ ['"']) := by
  unfold subPat
  have hlen : ('"' :: (lchars "Build/" ++ (u ++ (mid ++ (w ++ ['"']))))).length
      = (u.length + (mid.length + w.length) + 5) + 3 := by
    have h6 : (lchars "Build/").length = 6 := rfl
    simp only [List.length_cons, List.length_append, List.length_nil, h6]
    omega
  rw [hlen]
  rw [subPatGo_step_none mid negGz repl _ '"' _ (matchPat_quoteHead mid negGz _)]
  have hmatch := matchPat_found mid negGz hmidne hmidnq u w ['"'] hu hw rfl htail
  rw [subPatGo_step_match mid negGz repl _ _ _ (buildChars_append_ne_nil _) hmatch]
  have hdrop : (lchars "Build/" ++ (u ++ (mid ++ (w ++ ['"'])))).drop
      (6 + (u.length + (mid.length + w.length))) = ['"'] := by
    have hshape : lchars "Build/" ++ (u ++ (mid ++ (w ++ ['"'])))
        = (lchars "Build/" ++ u ++ mid ++ w) ++ ['"'] := by
      simp [List.append_assoc]
    rw [hshape]
    have hlen2 : (lchars "Build/" ++ u ++ mid ++ w).length
        = 6 + (u.length + (mid.length + w.length)) := by
      have h6 : (lchars "Build/").length = 6 := rfl
      simp only [List.length_append, h6]
      omega
    rw [← hlen2, List.drop_left]
  rw [hdrop]
  rw [subPatGo_step_none mid negGz repl _ '"' _ (matchPat_quoteHead mid negGz _)]
  rw [subPatGo_nil]

theorem charBeq_false_of_ne {c d : Char} (h : c ≠ d) : (c == d) = false := by
  cases hbe : (c == d)
  · rfl
  · exact absurd (eq_of_beq hbe) h

theorem isQuote_false_of_ne (c : Char) (h1 : c ≠ '"') (h2 : c ≠ Char.ofNat 39) :
    isQuote c = false := by
  unfold isQuote
  rw [charBeq_false_of_ne h1, charBeq_false_of_ne h2]
  rfl

theorem containsSub_dotHead_append (p' : List Char) :
    ∀ x t : List Char, (∀ c ∈ x, c ≠ '.') →
      containsSub ('.' :: p') (x ++ t) = containsSub ('.' :: p') t := by
  intro x
  induction x with
  | nil => intro t _; rfl
  | cons c x' ih =>
    intro t hx
    have hc : ('.' == c) = false := by
      have hne : c ≠ '.' := hx c (List.mem_cons_self c x')
      exact charBeq_false_of_ne (fun he => hne he.symm)
    have hpref : ('.' :: p').isPrefixOf (c :: (x' ++ t)) = false := by
      show (('.' == c) && p'.isPrefixOf (x' ++ t)) = false
      rw [hc, Bool.false_and]
    have hstep : containsSub ('.' :: p') ((c :: x') ++ t)
        = (('.' :: p').isPrefixOf (c :: (x' ++ t)) || containsSub ('.' :: p') (x' ++ t)) := rfl
    rw [hstep, hpref, Bool.false_or]
    exact ih t (fun d hd => hx d (List.mem_cons_of_mem c hd))

theorem containsSub_quotedBuild (p p' : List Char) (hp : p = '.' :: p')
    (a t : List Char) (ha : ∀ c ∈ a, c ≠ '.') :
    containsSub p (quotedBuild (a ++ t)) = containsSub p (t ++ ['"']) := by
  subst hp
  have hshape : quotedBuild (a ++ t) = (('"' :: lchars "Build/") ++ a) ++ (t ++ ['"']) := by
    simp [quotedBuild, List.append_assoc]
  rw [hshape]
  apply containsSub_dotHead_append
  intro c hc
  rcases List.mem_append.mp hc with h1 | h2
  · have hall : ∀ c ∈ ('"' :: lchars "Build/"), c ≠ '.' := by decide
    exact hall c h1
  · exact ha c h2

theorem subPat_quotedBuild_id (mid p' : List Char) (negGz : Bool) (repl : List Char)
    (hmid : mid = '.' :: p') (a t : List Char) (ha : ∀ c ∈ a, c ≠ '.')
    (hconc : containsSub mid (t ++ ['"']) = false) :
    subPat mid negGz repl (quotedBuild (a ++ t)) = quotedBuild (a ++ t) := by
  apply subPat_id
  rw [containsSub_quotedBuild mid p' hmid a t ha]
  exact hconc

theorem subPat_quotedBuild_match (mid w t : List Char) (negGz : Bool) (repl : List Char)
    (a : List Char) (hsplit : t = mid ++ w)
    (hmidne : mid ≠ []) (hmidnq : noQuote mid = true)
    (ha : noQuote a = true) (hw : noQuote w = true)
    (htail : containsSub mid (mid.drop 1 ++ (w ++ ['"'])) = false) :
    subPat mid negGz repl (quotedBuild (a ++ t)) = '"' :: (repl ++ ['"']) := by
  have hshape : quotedBuild (a ++ t)
      = '"' :: (lchars "Build/" ++ (a ++ (mid ++ (w ++ ['"'])))) := by
    rw [hsplit]
    simp [quotedBuild, List.append_assoc]
  rw [hshape]
  exact subPat_quoted mid negGz repl a w hmidne hmidnq ha hw htail

theorem rewritePaths_loader (a : List Char)
    (_hdot : ∀ c ∈ a, c ≠ '.') (haq : noQuote a = true) :
    rewritePaths (quotedBuild (a ++ lchars ".loader.js"))
      = '"' :: (lchars "Build/loader.js" ++ ['"']) := by
  simp only [rewritePaths, replacements, List.foldl_cons, List.foldl_nil]
  rw [subPat_quotedBuild_match (lchars ".loader.js") [] (lchars ".loader.js") false
    (lchars "Build/loader.js") a (by decide) (by decide) (by decide) haq (by decide)
    (by decide)]
  decide

theorem rewritePaths_loader_gz (a : List Char)
    (_hdot : ∀ c ∈ a, c ≠ '.') (haq : noQuote a = true) :
    rewritePaths (quotedBuild (a ++ lchars ".loader.js.gz"))
      = '"' :: (lchars "Build/loader.js" ++ ['"']) := by
  simp only [rewritePaths, replacements, List.foldl_cons, List.foldl_nil]
  rw [subPat_quotedBuild_match (lchars ".loader.js") (lchars ".gz")
    (lchars ".loader.js.gz") false (lchars "Build/loader.js") a (by decide) (by decide)
    (by decide) haq (by decide) (by decide)]
  decide

theorem rewritePaths_framework_gz (a : List Char)
    (hdot : ∀ c ∈ a, c ≠ '.') (haq : noQuote a = true) :
    rewritePaths (quotedBuild (a ++ lchars ".framework.js.gz"))
      = '"' :: (lchars "Build/framework.js.gz" ++ ['"']) := by
  simp only [rewritePaths, replacements, List.foldl_cons, List.foldl_nil]
  rw [subPat_quotedBuild_id (lchars ".loader.js") (lchars "loader.js") false
    (lchars "Build/loader.js") (by decide) a (lchars ".framework.js.gz") hdot (by decide)]
  rw [subPat_quotedBuild_match (lchars ".framework.js.gz") [] (lchars ".framework.js.gz")
    false (lchars "Build/framework.js.gz") a (by decide) (by decide) (by decide) haq
    (by decide) (by decide)]
  decide

theorem rewritePaths_framework (a : List Char)
    (hdot : ∀ c ∈ a, c ≠ '.') (haq : noQuote a = true) :
    rewritePaths (quotedBuild (a ++ lchars ".framework.js"))
      = '"' :: (lchars "Build/framework.js" ++ ['"']) := by
  simp only [rewritePaths, replacements, List.foldl_cons, List.foldl_nil]
  rw [subPat_quotedBuild_id (lchars ".loader.js") (lchars "loader.js") false
    (lchars "Build/loader.js") (by decide) a (lchars ".framework.js") hdot (by decide)]
  rw [subPat_quotedBuild_id (lchars ".framework.js.gz") (lchars "framework.js.gz") false
    (lchars "Build/framework.js.gz") (by decide) a (lchars ".framework.js") hdot (by decide)]
  rw [subPat_quotedBuild_match (lchars ".framework.js") [] (lchars ".framework.js")
    true (lchars "Build/framework.js") a (by decide) (by decide) (by decide) haq
    (by decide) (by decide)]
  decide

theorem rewritePaths_data_gz (a : List Char)
    (hdot : ∀ c ∈ a, c ≠ '.') (haq : noQuote a = true) :
    rewritePaths (quotedBuild (a ++ lchars ".data.gz"))
      = '"' :: (lchars "Build/data.gz" ++ ['"']) := by
  simp only [rewritePaths, replacements, List.foldl_cons, List.foldl_nil]
  rw [subPat_quotedBuild_id (lchars ".loader.js") (lchars "loader.js") false
    (lchars "Build/loader.js") (by decide) a (lchars ".data.gz") hdot (by decide)]
  rw [subPat_quotedBuild_id (lchars ".framework.js.gz") (lchars "framework.js.gz") false
    (lchars "Build/framework.js.gz") (by decide) a (lchars ".data.gz") hdot (by decide)]
  rw [subPat_quotedBuild_id (lchars ".framework.js") (lchars "framework.js") true
    (lchars "Build/framework.js") (by decide) a (lchars ".data.gz") hdot (by decide)]
  rw [subPat_quotedBuild_match (lchars ".data.gz") [] (lchars ".data.gz")
    false (lchars "Build/data.gz") a (by decide) (by decide) (by decide) haq
    (by decide) (by decide)]
  decide

theorem rewritePaths_data (a : List Char)
    (hdot : ∀ c ∈ a, c ≠ '.') (haq : noQuote a = true) :
    rewritePaths (quotedBuild (a ++ lchars ".data"))
      = '"' :: (lchars "Build/data" ++ ['"']) := by
  simp only [rewritePaths, replacements, List.foldl_cons, List.foldl_nil]
  rw [subPat_quotedBuild_id (lchars ".loader.js") (lchars "loader.js") false
    (lchars "Build/loader.js") (by decide) a (lchars ".data") hdot (by decide)]
  rw [subPat_quotedBuild_id (lchars ".framework.js.gz") (lchars "framework.js.gz") false
    (lchars "Build/framework.js.gz") (by decide) a (lchars ".data") hdot (by decide)]
  rw [subPat_quotedBuild_id (lchars ".framework.js") (lchars "framework.js") true
    (lchars "Build/framework.js") (by decide) a (lchars ".data") hdot (by decide)]
  rw [subPat_quotedBuild_id (lchars ".data.gz") (lchars "data.gz") false
    (lchars "Build/data.gz") (by decide) a (lchars ".data") hdot (by decide)]
  rw [subPat_quotedBuild_match (lchars ".data") [] (lchars ".data")
    true (lchars "Build/data") a (by decide) (by decide) (by decide) haq
    (by decide) (by decide)]
  decide

theorem rewritePaths_wasm_gz (a : List Char)
    (hdot : ∀ c ∈ a, c ≠ '.') (haq : noQuote a = true) :
    rewritePaths (quotedBuild (a ++ lchars ".wasm.gz"))
      = '"' :: (lchars "Build/wasm.gz" ++ ['"']) := by
  simp only [rewritePaths, replacements, List.foldl_cons, List.foldl_nil]
  rw [subPat_quotedBuild_id (lchars ".loader.js") (lchars "loader.js") false
    (lchars "Build/loader.js") (by decide) a (lchars ".wasm.gz") hdot (by decide)]
  rw [subPat_quotedBuild_id (lchars ".framework.js.gz") (lchars "framework.js.gz") false
    (lchars "Build/framework.js.gz") (by decide) a (lchars ".wasm.gz") hdot (by decide)]
  rw [subPat_quotedBuild_id (lchars ".framework.js") (lchars "framework.js") true
    (lchars "Build/framework.js") (by decide) a (lchars ".wasm.gz") hdot (by decide)]
  rw [subPat_quotedBuild_id (lchars ".data.gz") (lchars "data.gz") false
    (lchars "Build/data.gz") (by decide) a (lchars ".wasm.gz") hdot (by decide)]
  rw [subPat_quotedBuild_id (lchars ".data") (lchars "data") true
    (lchars "Build/data") (by decide) a (lchars ".wasm.gz") hdot (by decide)]
  rw [subPat_quotedBuild_match (lchars ".wasm.gz") [] (lchars ".wasm.gz")
    false (lchars "Build/wasm.gz") a (by decide) (by decide) (by decide) haq
    (by decide) (by decide)]
  decide

theorem rewritePaths_wasm (a : List Char)
    (hdot : ∀ c ∈ a, c ≠ '.') (haq : noQuote a = true) :
    rewritePaths (quotedBuild (a ++ lchars ".wasm"))
      = '"' :: (lchars "Build/wasm" ++ ['"']) := by
  simp only [rewritePaths, replacements, List.foldl_cons, List.foldl_nil]
  rw [subPat_quotedBuild_id (lchars ".loader.js") (lchars "loader.js") false
    (lchars "Build/loader.js") (by decide) a (lchars ".wasm") hdot (by decide)]
  rw [subPat_quotedBuild_id (lchars ".framework.js.gz") (lchars "framework.js.gz") false
    (lchars "Build/framework.js.gz") (by decide) a (lchars ".wasm") hdot (by decide)]
  rw [subPat_quotedBuild_id (lchars ".framework.js") (lchars "framework.js") true
    (lchars "Build/framework.js") (by decide) a (lchars ".wasm") hdot (by decide)]
  rw [subPat_quotedBuild_id (lchars ".data.gz") (lchars "data.gz") false
    (lchars "Build/data.gz") (by decide) a (lchars ".wasm") hdot (by decide)]
  rw [subPat_quotedBuild_id (lchars ".data") (lchars "data") true
    (lchars "Build/data") (by decide) a (lchars ".wasm") hdot (by decide)]
  rw [subPat_quotedBuild_id (lchars ".wasm.gz") (lchars "wasm.gz") false
    (lchars "Build/wasm.gz") (by decide) a (lchars ".wasm") hdot (by decide)]
  rw [subPat_quotedBuild_match (lchars ".wasm") [] (lchars ".wasm")
    true (lchars "Build/wasm") a (by decide) (by decide) (by decide) haq
    (by decide) (by decide)]

/-- C3 counterexample: in the unquoted input
`Build/a.loader.js Build/b.data`, the path `Build/b.data` matches the data
role pattern, yet the rewritten output is just `Build/loader.js` and contains
no `Build/data` at all: the loader pattern's trailing `[^"']*` wildcard ran
to the end of the quote-free stretch and swallowed the data path, so that
path was not replaced by its canonical path as the claim requires of every
input string. -/
theorem C3_counterexample :
    rewritePaths (lchars "Build/a.loader.js Build/b.data") = lchars "Build/loader.js"
    ∧ (matchPat (lchars ".data") true (lchars "Build/b.data")).isSome = true
    ∧ containsSub (lchars "Build/b.data")
        (lchars "Build/a.loader.js Build/b.data") = true
    ∧ containsSub (lchars "Build/data")
        (rewritePaths (lchars "Build/a.loader.js Build/b.data")) = false := by
  refine ⟨by decide, by decide, by decide, by decide⟩

/-- C3 amended: for every quote-delimited asset path
`"Build/<name><role suffix>[.gz]"` whose name part contains no quote and no
dot, the rewriter replaces the whole quoted path by the role's canonical
path — `Build/loader.js` for the loader with or without `.gz`, and the
framework/data/code canonical names with their compression variant
preserved.  (Outside quote isolation a role path adjacent to another match
can be absorbed by that match's trailing wildcard, per the counterexample.) -/
theorem C3_pattern_complete_quoted :
    ∀ a : List Char, (∀ c ∈ a, c ≠ '"' ∧ c ≠ Char.ofNat 39 ∧ c ≠ '.') →
      (rewritePaths (quotedBuild (a ++ lchars ".loader.js"))
          = '"' :: (lchars "Build/loader.js" ++ ['"'])
        ∧ rewritePaths (quotedBuild (a ++ lchars ".loader.js.gz"))
          = '"' :: (lchars "Build/loader.js" ++ ['"']))
      ∧ (rewritePaths (quotedBuild (a ++ lchars ".framework.js"))
          = '"' :: (lchars "Build/framework.js" ++ ['"'])
        ∧ rewritePaths (quotedBuild (a ++ lchars ".framework.js.gz"))
          = '"' :: (lchars "Build/framework.js.gz" ++ ['"']))
      ∧ (rewritePaths (quotedBuild (a ++ lchars ".data"))
          = '"' :: (lchars "Build/data" ++ ['"'])
        ∧ rewritePaths (quotedBuild (a ++ lchars ".data.gz"))
          = '"' :: (lchars "Build/data.gz" ++ ['"']))
      ∧ (rewritePaths (quotedBuild (a ++ lchars ".wasm"))
          = '"' :: (lchars "Build/wasm" ++ ['"'])
        ∧ rewritePaths (quotedBuild (a ++ lchars ".wasm.gz"))
          = '"' :: (lchars "Build/wasm.gz" ++ ['"'])) := by
  intro a h
  have hdot : ∀ c ∈ a, c ≠ '.' := fun c hc => (h c hc).2.2
  have haq : noQuote a = true := by
    apply List.all_eq_true.mpr
    intro c hc
    have hcc := h c hc
    simp [isQuote_false_of_ne c hcc.1 hcc.2.1]
  exact ⟨⟨rewritePaths_loader a hdot haq, rewritePaths_loader_gz a hdot haq⟩,
    ⟨rewritePaths_framework a hdot haq, rewritePaths_framework_gz a hdot haq⟩,
    ⟨rewritePaths_data a hdot haq, rewritePaths_data_gz a hdot haq⟩,
    ⟨rewritePaths_wasm a hdot haq, rewritePaths_wasm_gz a hdot haq⟩⟩

/-- C3 witness: the amended statement applied to the name `MyGame`. -/
theorem C3_pattern_complete_quoted_witness :
    rewritePaths (quotedBuild (lchars "MyGame" ++ lchars ".loader.js"))
        = '"' :: (lchars "Build/loader.js" ++ ['"'])
    ∧ rewritePaths (quotedBuild (lchars "MyGame" ++ lchars ".data.gz"))
        = '"' :: (lchars "Build/data.gz" ++ ['"'])
    ∧ rewritePaths (quotedBuild (lchars "MyGame" ++ lchars ".wasm"))
        = '"' :: (lchars "Build/wasm" ++ ['"']) :=
  ⟨(C3_pattern_complete_quoted (lchars "MyGame") (by decide)).1.1,
   (C3_pattern_complete_quoted (lchars "MyGame") (by decide)).2.2.1.2,
   (C3_pattern_complete_quoted (lchars "MyGame") (by decide)).2.2.2.1⟩
